import Mathlib

/-!
Verification of the VideoMorph task-queue and encoding-progress engine.

The development shallowly embeds the Python sources:
  videomorph/converter/video.py       (Video, VideoCreator)
  videomorph/converter/converter.py   (Converter)
  videomorph/forms/videomorph.py      (VideoMorphMW orchestration methods)

Durations and wall-clock times (Python floats) are modelled as rationals;
the claims under study involve no floating-point rounding.  External
side effects (Qt signals, dialog boxes, file deletion, process control)
are modelled as an explicit trace of actions emitted by each operation.
-/

namespace Videomorph

/-- Task status values, from `MediaFileStatus` in `converter/__init__.py`:
`STATUS = MediaFileStatus('To convert', 'Done!', 'Stopped!')`. -/
inductive Status where
  | todo
  | done
  | stopped
  deriving DecidableEq, Repr

/-- Observable side effects of the orchestration methods, in the order the
code performs them.  Each constructor corresponds to one call site in
`videomorph/forms/videomorph.py` or `converter/converter.py`. -/
inductive Act where
  | notifySound
  | closeConverter
  | markDone
  | deleteInput
  | endEncoding
  | stopConverter
  | setStatus (i : Nat)
  | setText (i : Nat)
  | deleteOutput
  | resetTimes
  | recomputeDuration
  | catchErrors
  | initProcessTime
  | initOperationTime
  | updateTime
  | updateCumTimes
  | emitProgress
  | buildCmd (i : Nat)
  | startConv (i : Nat)
  | setIdle
  | terminate
  | kill
  deriving DecidableEq, Repr

/-! ## Video intake (`converter/video.py`) -/

/-- A source media file together with the result of probing its container
format once at intake.  `FFprobe` is an external collaborator; the field
`duration` records what `video.format_info["duration"]` yields:
`none` when the key is missing (`KeyError`), `some none` when the value is
present but does not parse as a float (`TypeError`/`ValueError`), and
`some (some d)` when `float(...)` returns `d`. -/
structure Video where
  path : String
  duration : Option (Option ℚ)
  deriving DecidableEq, Repr

/-- `Video.is_valid`: `float(self.format_info["duration"]) > 0`, with
`TypeError`, `ValueError` and `KeyError` caught and turned into `False`. -/
def Video.is_valid (v : Video) : Bool :=
  match v.duration with
  | some (some d) => decide (0 < d)
  | _ => false

/-- `VideoCreator.createVideo`: iterate over the input files, emit a
`createdVideo` signal for each valid video, and collect the paths of the
invalid ones into the `nonValidVideos` list (emitted as `notAddedVideos`).
Returns (videos emitted in order, not-added paths in order). -/
def createVideo : List Video → List Video × List String
  | [] => ([], [])
  | v :: rest =>
    let (cs, ns) := createVideo rest
    if v.is_valid then (v :: cs, ns) else (cs, v.path :: ns)

/-- The `createdVideo` signal is connected to `VideoMorphMW.add_task`, which
appends to `self.task_list`; the queue after a batch is the old queue with
the created videos appended. -/
def addCreated (queue files : List Video) : List Video :=
  queue ++ (createVideo files).1

theorem createVideo_fst (files : List Video) :
    (createVideo files).1 = files.filter (·.is_valid) := by
  induction files with
  | nil => rfl
  | cons v rest ih =>
    simp only [createVideo, List.filter]
    cases h : v.is_valid <;> simp [h, ih]

theorem createVideo_snd (files : List Video) :
    (createVideo files).2 = (files.filter (fun v => !v.is_valid)).map (·.path) := by
  induction files with
  | nil => rfl
  | cons v rest ih =>
    simp only [createVideo, List.filter]
    cases h : v.is_valid <;> simp [h, ih]

/-- C1: a created `Video` is valid iff its probed format duration parses as
a float greater than 0; every file of a batch whose probe reports a missing,
non-numeric, or non-positive duration ends up in the not-added list, is
never emitted as a created video, and contributes nothing to the queue:
the queue grows by exactly the number of valid files, and a batch of only
invalid files leaves the queue unchanged. -/
theorem C1_intake_validity (queue files : List Video) :
    (∀ v ∈ files,
        v.is_valid = true ↔ ∃ d : ℚ, v.duration = some (some d) ∧ 0 < d)
    ∧ (∀ v ∈ files, v.is_valid = false →
        v.path ∈ (createVideo files).2 ∧ v ∉ (createVideo files).1)
    ∧ (addCreated queue files).length
        = queue.length + files.countP (·.is_valid)
    ∧ ((∀ v ∈ files, v.is_valid = false) → addCreated queue files = queue) := by
  refine ⟨?_, ?_, ?_, ?_⟩
  · intro v _
    constructor
    · intro h
      unfold Video.is_valid at h
      match hd : v.duration with
      | some (some d) =>
        rw [hd] at h
        exact ⟨d, rfl, by exact_mod_cast of_decide_eq_true h⟩
      | some none => rw [hd] at h; simp at h
      | none => rw [hd] at h; simp at h
    · rintro ⟨d, hd, hpos⟩
      unfold Video.is_valid
      rw [hd]
      exact decide_eq_true hpos
  · intro v hv hinv
    constructor
    · rw [createVideo_snd]
      exact List.mem_map_of_mem _ (List.mem_filter.mpr ⟨hv, by simp [hinv]⟩)
    · rw [createVideo_fst]
      intro hmem
      have := (List.mem_filter.mp hmem).2
      rw [hinv] at this
      exact Bool.false_ne_true this
  · unfold addCreated
    rw [List.length_append, createVideo_fst, List.countP_eq_length_filter]
  · intro hall
    unfold addCreated
    rw [createVideo_fst]
    have : files.filter (·.is_valid) = [] := by
      apply List.filter_eq_nil_iff.mpr
      intro v hv
      simp [hall v hv]
    simp [this]

/-- C1 witness: a batch holding one invalid file (probed duration `0`) and
one valid file (duration `7/2`): the invalid one is rejected and the queue
of one previously added video grows by exactly one. -/
theorem C1_intake_validity_witness :
    (Video.is_valid ⟨"bad.avi", some (some 0)⟩ = true
        ↔ ∃ d : ℚ, (some (some 0) : Option (Option ℚ)) = some (some d) ∧ 0 < d)
    ∧ ("bad.avi" ∈
        (createVideo [⟨"bad.avi", some (some 0)⟩, ⟨"ok.mp4", some (some (7/2))⟩]).2
      ∧ (⟨"bad.avi", some (some 0)⟩ : Video) ∉
        (createVideo [⟨"bad.avi", some (some 0)⟩, ⟨"ok.mp4", some (some (7/2))⟩]).1)
    ∧ (addCreated [⟨"old.mkv", some (some 1)⟩]
        [⟨"bad.avi", some (some 0)⟩, ⟨"ok.mp4", some (some (7/2))⟩]).length
        = 1 + 1 := by
  have h := C1_intake_validity [⟨"old.mkv", some (some 1)⟩]
    [⟨"bad.avi", some (some 0)⟩, ⟨"ok.mp4", some (some (7/2))⟩]
  refine ⟨h.1 ⟨"bad.avi", some (some 0)⟩ (by simp),
    h.2.1 ⟨"bad.avi", some (some 0)⟩ (by simp) (by decide), ?_⟩
  rw [h.2.2.1]
  norm_num [List.countP, List.countP.go, Video.is_valid]

/-! ## Process control (`converter/converter.py`) -/

/-- The external encoding process as seen from `Converter.stop_converter`.
`exitDelay` is the number of time units after the `terminate()` request at
which the process leaves the `QProcess.Running` state on its own;
`exitDelay = 0` means it had already exited when `stop_converter` ran. -/
structure EncProcess where
  exitDelay : Nat
  deriving DecidableEq, Repr

/-- `Converter.converter_is_running` observed `t` time units after the
`terminate()` request: `self._process.state() == QProcess.Running`. -/
def converter_is_running (p : EncProcess) (t : Nat) : Bool :=
  decide (t < p.exitDelay)

/-- `Converter.stop_converter`: `self._process.terminate()` followed
immediately (no wait) by `if self.converter_is_running: self._process.kill()`.
The running check happens synchronously at time `0` after the request. -/
def stop_converter (p : EncProcess) : List Act :=
  Act.terminate :: (if converter_is_running p 0 then [Act.kill] else [])

/-- C3 counterexample: there is no positive grace period within which a
process that exits promptly after the termination request escapes the
forced kill: for every candidate grace period, a process exiting after one
time unit (well within the period) is still force-killed, because
`stop_converter` checks the running state with no wait at all. -/
theorem C3_no_grace_period :
    ¬ ∃ grace : Nat, 0 < grace ∧
      ∀ p : EncProcess, 0 < p.exitDelay → p.exitDelay ≤ grace →
        Act.kill ∉ stop_converter p := by
  rintro ⟨grace, hpos, h⟩
  have := h ⟨1⟩ (by decide) hpos
  simp [stop_converter, converter_is_running] at this

/-- C3 amended: `stop_converter` first requests graceful termination and
then escalates to a forced kill if and only if the process is still in the
`Running` state at the immediate, zero-delay check after the request; only
a process that had already exited escapes the kill. The termination request
always comes first in the action sequence. -/
theorem C3_stop_converter_behaviour (p : EncProcess) :
    stop_converter p
      = Act.terminate :: (if 0 < p.exitDelay then [Act.kill] else [])
    ∧ (Act.kill ∈ stop_converter p ↔ 0 < p.exitDelay)
    ∧ (stop_converter p).head? = some Act.terminate := by
  unfold stop_converter converter_is_running
  rcases Nat.eq_zero_or_pos p.exitDelay with h | h
  · simp [h]
  · simp [h, Nat.pos_iff_ne_zero.mp h]

/-! ## Task list and progress clock state (`forms/videomorph.py`)

`TaskList` and the `ConversionTimer` live in modules of this repository
that are not part of the sources under study (`converter/tasklist.py`,
`converter/timer.py`); only their call sites in `forms/videomorph.py`
are available.  Their state and the few operations the claims need are
therefore modelled from the spec, as noted on each definition. -/

/-- One conversion task: the probed duration of its source file and its
conversion status. -/
structure Task where
  duration : ℚ
  status : Status
  deriving DecidableEq, Repr

/-- Modelled from the spec: the ProgressClock state — `processStartTime`,
`operationStartTime` wall-clock timestamps and the two cumulative running
totals, with `processCumulativeSeconds >= operationCumulativeSeconds`
once an operation starts. -/
structure Timer where
  processStartTime : ℚ
  operationStartTime : ℚ
  processCumTime : ℚ
  operationCumTime : ℚ
  deriving DecidableEq, Repr

/-- Modelled from the spec: `resetProgressTimes()` zeroes all cumulative
and start-time fields (`converter/timer.py` is not among the sources). -/
def reset_progress_times : Timer := ⟨0, 0, 0, 0⟩

/-- Modelled from the spec: `TaskList.duration()` — `totalDuration` is the
sum of `durationSeconds` over tasks not yet `Done`, recomputed on demand
(`converter/tasklist.py` is not among the sources). -/
def taskListTotalDuration (tasks : List Task) : ℚ :=
  ((tasks.filter (fun t => t.status ≠ Status.done)).map (·.duration)).sum

/-- The orchestration state threaded through the `VideoMorphMW` methods:
the task list with its current position, the progress clock, the cached
`task_list_duration`, and whether the external converter process runs. -/
structure MWState where
  tasks : List Task
  pos : Option Nat
  timer : Timer
  taskListDuration : ℚ
  converterRunning : Bool
  deriving DecidableEq, Repr

/-- Set the status of the task at one index, leaving the rest unchanged
(the `running_task_status` property setter of the task list). -/
def setStatusAt : List Task → Nat → Status → List Task
  | [], _, _ => []
  | t :: ts, 0, s => { t with status := s } :: ts
  | t :: ts, i + 1, s => t :: setStatusAt ts i s

/-- `VideoMorphMW.stop_file_encoding`: stop the converter, set the running
task's status to `Stopped`, write "Stopped!" into the progress column,
delete the partially written output, reset the progress times and
recompute the list duration — in that order.  The method is only invoked
while a task is running, so `pos` is set; `getD 0` mirrors the direct use
of `self.task_list.position` as an index. -/
def stop_file_encoding (st : MWState) : MWState × List Act :=
  let p := st.pos.getD 0
  let tasks' := setStatusAt st.tasks p Status.stopped
  ({ st with
      tasks := tasks'
      timer := reset_progress_times
      taskListDuration := taskListTotalDuration tasks'
      converterRunning := false },
   [Act.stopConverter, Act.setStatus p, Act.setText p, Act.deleteOutput,
    Act.resetTimes, Act.recomputeDuration])

/-- The `for media_file in self.task_list` loop of
`stop_all_files_encoding`: every task whose status is not `Done` gets
status `Stopped` and its progress cell set to "Stopped!"; `i` is the index
of the first task of the remaining list. -/
def stopAllLoopActs : List Task → Nat → List Act
  | [], _ => []
  | t :: ts, i =>
    (if t.status ≠ Status.done then [Act.setStatus i, Act.setText i] else [])
      ++ stopAllLoopActs ts (i + 1)

/-- Status updates performed by the `stop_all_files_encoding` loop. -/
def stopAllStatuses : List Task → List Task
  | [] => []
  | t :: ts =>
    (if t.status ≠ Status.done then { t with status := Status.stopped } else t)
      :: stopAllStatuses ts

/-- The loop also reassigns `self.task_list.position` to the index of each
non-`Done` task it touches, so it ends at the last such index (or is left
alone when every task is `Done`). -/
def lastNonDoneIdx (tasks : List Task) : Option Nat :=
  (List.range tasks.length).foldl
    (fun acc i =>
      match tasks.get? i with
      | some t => if t.status ≠ Status.done then some i else acc
      | none => acc)
    none

/-- `VideoMorphMW.stop_all_files_encoding`: stop the converter, delete the
running output, then mark every non-`Done` task `Stopped`, then reset the
progress times and recompute the list duration — in that order. -/
def stop_all_files_encoding (st : MWState) : MWState × List Act :=
  let tasks' := stopAllStatuses st.tasks
  let pos' := match lastNonDoneIdx st.tasks with
    | some i => some i
    | none => st.pos
  ({ st with
      tasks := tasks'
      pos := pos'
      timer := reset_progress_times
      taskListDuration := taskListTotalDuration tasks'
      converterRunning := false },
   [Act.stopConverter, Act.deleteOutput]
     ++ stopAllLoopActs st.tasks 0
     ++ [Act.resetTimes, Act.recomputeDuration])

theorem stopAllLoopActs_shape (ts : List Task) (i : Nat) :
    ∀ a ∈ stopAllLoopActs ts i, ∃ k, a = Act.setStatus k ∨ a = Act.setText k := by
  induction ts generalizing i with
  | nil => intro a ha; cases ha
  | cons t ts ih =>
    intro a ha
    simp only [stopAllLoopActs, List.mem_append] at ha
    rcases ha with ha | ha
    · by_cases h : t.status ≠ Status.done
      · simp [h] at ha
        rcases ha with ha | ha
        · exact ⟨i, Or.inl ha⟩
        · exact ⟨i, Or.inr ha⟩
      · simp [h] at ha
    · exact ih (i + 1) a ha

theorem stopAllStatuses_get? (ts : List Task) :
    ∀ i t, ts.get? i = some t →
      (stopAllStatuses ts).get? i
        = some (if t.status = Status.done then t
                else { t with status := Status.stopped }) := by
  induction ts with
  | nil => intro i t h; cases h
  | cons hd tl ih =>
    intro i t h
    cases i with
    | zero =>
      simp only [List.get?] at h
      injection h with h
      subst h
      by_cases hs : hd.status = Status.done <;> simp [stopAllStatuses, hs]
    | succ j =>
      simpa [stopAllStatuses] using ih j t (by simpa using h)

/-- C4: after `stop_all_files_encoding`, every task that was not `Done`
has status `Stopped` and every `Done` task keeps status `Done` (all
durations untouched); the cumulative process time of the progress clock is
zero; and the action trace performs the progress-times reset strictly
before the single recomputation of the queue duration. -/
theorem C4_stop_all (st : MWState) :
    (∀ i t, st.tasks.get? i = some t →
      ∃ t', (stop_all_files_encoding st).1.tasks.get? i = some t'
        ∧ t'.status = (if t.status = Status.done then Status.done
                       else Status.stopped)
        ∧ t'.duration = t.duration)
    ∧ (stop_all_files_encoding st).1.timer.processCumTime = 0
    ∧ ∃ pre, (stop_all_files_encoding st).2
          = pre ++ [Act.resetTimes, Act.recomputeDuration]
        ∧ Act.resetTimes ∉ pre ∧ Act.recomputeDuration ∉ pre := by
  refine ⟨?_, rfl, ?_⟩
  · intro i t h
    refine ⟨if t.status = Status.done then t
            else { t with status := Status.stopped },
      stopAllStatuses_get? st.tasks i t h, ?_, ?_⟩
    · by_cases hs : t.status = Status.done <;> simp [hs]
    · by_cases hs : t.status = Status.done <;> simp [hs]
  · refine ⟨[Act.stopConverter, Act.deleteOutput] ++ stopAllLoopActs st.tasks 0,
      by simp [stop_all_files_encoding], ?_, ?_⟩
    · intro hmem
      simp only [List.mem_append] at hmem
      rcases hmem with hmem | hmem
      · simp at hmem
      · rcases stopAllLoopActs_shape st.tasks 0 _ hmem with ⟨k, hk | hk⟩ <;>
          simp at hk
    · intro hmem
      simp only [List.mem_append] at hmem
      rcases hmem with hmem | hmem
      · simp at hmem
      · rcases stopAllLoopActs_shape st.tasks 0 _ hmem with ⟨k, hk | hk⟩ <;>
          simp at hk

/-- C4 witness: a two-task queue (first `Done`, second still to convert)
with a non-zero clock: the `Done` task stays `Done`, the other becomes
`Stopped`, the cumulative process time is reset to zero, and the reset
precedes the duration recomputation in the trace. -/
theorem C4_stop_all_witness :
    (∃ t', (stop_all_files_encoding
        ⟨[⟨120, Status.done⟩, ⟨60, Status.todo⟩], some 1, ⟨5, 5, 5, 5⟩, 60,
          true⟩).1.tasks.get? 1 = some t'
      ∧ t'.status = Status.stopped ∧ t'.duration = 60)
    ∧ (stop_all_files_encoding
        ⟨[⟨120, Status.done⟩, ⟨60, Status.todo⟩], some 1, ⟨5, 5, 5, 5⟩, 60,
          true⟩).1.timer.processCumTime = 0 := by
  have h := C4_stop_all
    ⟨[⟨120, Status.done⟩, ⟨60, Status.todo⟩], some 1, ⟨5, 5, 5, 5⟩, 60, true⟩
  refine ⟨?_, h.2.1⟩
  rcases h.1 1 ⟨60, Status.todo⟩ rfl with ⟨t', hget, hst, hd⟩
  exact ⟨t', hget, by simpa using hst, hd⟩

/-- Number of tasks that transition to `Stopped` between two snapshots of
the task list: pairs whose status was not `Stopped` before and is
`Stopped` after. -/
def stoppedTransitions (before after : List Task) : Nat :=
  (before.zip after).countP
    (fun p => !decide (p.1.status = Status.stopped)
        && decide (p.2.status = Status.stopped))

theorem setStatusAt_idem (ts : List Task) (p : Nat) (s : Status) :
    setStatusAt (setStatusAt ts p s) p s = setStatusAt ts p s := by
  induction ts generalizing p with
  | nil => rfl
  | cons t ts ih =>
    cases p with
    | zero => rfl
    | succ q => simp [setStatusAt, ih]

theorem stoppedTransitions_refl (ts : List Task) :
    stoppedTransitions ts ts = 0 := by
  induction ts with
  | nil => rfl
  | cons t ts ih =>
    unfold stoppedTransitions at ih ⊢
    rw [List.zip_cons_cons, List.countP_cons, ih]
    by_cases h : t.status = Status.stopped <;> simp [h]

theorem stoppedTransitions_setStatusAt (ts : List Task) (p : Nat) (t : Task)
    (hget : ts.get? p = some t) (hnot : t.status ≠ Status.stopped) :
    stoppedTransitions ts (setStatusAt ts p Status.stopped) = 1 := by
  induction ts generalizing p with
  | nil => cases hget
  | cons hd tl ih =>
    cases p with
    | zero =>
      simp only [List.get?] at hget
      injection hget with hget
      subst hget
      have h0 := stoppedTransitions_refl tl
      unfold stoppedTransitions at h0 ⊢
      simp only [setStatusAt]
      rw [List.zip_cons_cons, List.countP_cons, h0]
      simp [hnot]
    | succ q =>
      simp only [List.get?] at hget
      have h1 := ih q hget
      unfold stoppedTransitions at h1 ⊢
      simp only [setStatusAt]
      rw [List.zip_cons_cons, List.countP_cons, h1]
      by_cases h : hd.status = Status.stopped <;> simp [h]

/-- C5 counterexample: from a running state holding one in-progress task,
calling `stop_file_encoding` twice performs the best-effort cleanup twice,
not once: the combined trace holds two `deleteOutput` attempts and two
progress-times resets, contradicting the claimed single cleanup attempt. -/
theorem C5_double_cleanup :
    ((stop_file_encoding ⟨[⟨60, Status.todo⟩], some 0, ⟨5, 5, 5, 5⟩, 60, true⟩).2
        ++ (stop_file_encoding
            (stop_file_encoding
              ⟨[⟨60, Status.todo⟩], some 0, ⟨5, 5, 5, 5⟩, 60, true⟩).1).2).count
        Act.deleteOutput = 2
    ∧ ¬ ((stop_file_encoding ⟨[⟨60, Status.todo⟩], some 0, ⟨5, 5, 5, 5⟩, 60,
            true⟩).2
        ++ (stop_file_encoding
            (stop_file_encoding
              ⟨[⟨60, Status.todo⟩], some 0, ⟨5, 5, 5, 5⟩, 60, true⟩).1).2).count
        Act.deleteOutput = 1 := by
  constructor <;> simp [stop_file_encoding, setStatusAt, List.count_cons]

/-- C5 amended: `stop_file_encoding` is idempotent on the orchestration
state — called twice from a running state it produces exactly one
transition of the running task to `Stopped` and the second call leaves all
state unchanged — but the best-effort cleanup is repeated: each of the two
calls makes its own deletion attempt on the partial output and its own
progress-times reset, so the combined trace holds two of each rather than
one. -/
theorem C5_stop_current_idempotent (st : MWState) (p : Nat) (t : Task)
    (hpos : st.pos = some p) (hget : st.tasks.get? p = some t)
    (hrun : t.status = Status.todo) :
    (stop_file_encoding (stop_file_encoding st).1).1 = (stop_file_encoding st).1
    ∧ stoppedTransitions st.tasks (stop_file_encoding st).1.tasks = 1
    ∧ stoppedTransitions (stop_file_encoding st).1.tasks
        (stop_file_encoding (stop_file_encoding st).1).1.tasks = 0
    ∧ ((stop_file_encoding st).2
        ++ (stop_file_encoding (stop_file_encoding st).1).2).count
        Act.deleteOutput = 2
    ∧ ((stop_file_encoding st).2
        ++ (stop_file_encoding (stop_file_encoding st).1).2).count
        Act.resetTimes = 2 := by
  have hidem :
      (stop_file_encoding (stop_file_encoding st).1).1
        = (stop_file_encoding st).1 := by
    simp only [stop_file_encoding, hpos, Option.getD_some]
    simp [setStatusAt_idem]
  refine ⟨hidem, ?_, ?_, ?_, ?_⟩
  · simp only [stop_file_encoding, hpos, Option.getD_some]
    exact stoppedTransitions_setStatusAt st.tasks p t hget (by simp [hrun])
  · have : (stop_file_encoding (stop_file_encoding st).1).1.tasks
        = (stop_file_encoding st).1.tasks := by rw [hidem]
    rw [this]
    exact stoppedTransitions_refl _
  · simp [stop_file_encoding, List.count_cons]
  · simp [stop_file_encoding, List.count_cons]

/-- C5 witness for the amended claim, at a one-task running queue. -/
theorem C5_stop_current_idempotent_witness :
    (stop_file_encoding
        (stop_file_encoding
          ⟨[⟨60, Status.todo⟩], some 0, ⟨5, 5, 5, 5⟩, 60, true⟩).1).1
      = (stop_file_encoding
          ⟨[⟨60, Status.todo⟩], some 0, ⟨5, 5, 5, 5⟩, 60, true⟩).1
    ∧ stoppedTransitions [⟨60, Status.todo⟩]
        (stop_file_encoding
          ⟨[⟨60, Status.todo⟩], some 0, ⟨5, 5, 5, 5⟩, 60, true⟩).1.tasks = 1 :=
  ⟨(C5_stop_current_idempotent
      ⟨[⟨60, Status.todo⟩], some 0, ⟨5, 5, 5, 5⟩, 60, true⟩ 0 ⟨60, Status.todo⟩
      rfl rfl rfl).1,
   (C5_stop_current_idempotent
      ⟨[⟨60, Status.todo⟩], some 0, ⟨5, 5, 5, 5⟩, 60, true⟩ 0 ⟨60, Status.todo⟩
      rfl rfl rfl).2.1⟩

/-- C6: in both user stop operations the termination request to the
external process comes strictly before any deletion of the partial output:
any occurrence of `deleteOutput` in either trace is preceded by an earlier
`stopConverter`. -/
theorem C6_terminate_before_cleanup (st : MWState) (i : Nat) :
    ((stop_file_encoding st).2.get? i = some Act.deleteOutput →
      ∃ j, j < i ∧ (stop_file_encoding st).2.get? j = some Act.stopConverter)
    ∧ ((stop_all_files_encoding st).2.get? i = some Act.deleteOutput →
      ∃ j, j < i
        ∧ (stop_all_files_encoding st).2.get? j = some Act.stopConverter) := by
  constructor
  · intro h
    refine ⟨0, ?_, by simp [stop_file_encoding]⟩
    rcases Nat.eq_zero_or_pos i with hi | hi
    · subst hi; simp [stop_file_encoding] at h
    · exact hi
  · intro h
    refine ⟨0, ?_, by simp [stop_all_files_encoding]⟩
    rcases Nat.eq_zero_or_pos i with hi | hi
    · subst hi; simp [stop_all_files_encoding] at h
    · exact hi

/-- C6 witness: in the one-task running queue, the `deleteOutput` at index
3 of the stop-current trace and at index 1 of the stop-all trace are both
preceded by the `stopConverter` request at index 0. -/
theorem C6_terminate_before_cleanup_witness :
    (∃ j, j < 3 ∧ (stop_file_encoding
        ⟨[⟨60, Status.todo⟩], some 0, ⟨5, 5, 5, 5⟩, 60, true⟩).2.get? j
      = some Act.stopConverter)
    ∧ (∃ j, j < 1 ∧ (stop_all_files_encoding
        ⟨[⟨60, Status.todo⟩], some 0, ⟨5, 5, 5, 5⟩, 60, true⟩).2.get? j
      = some Act.stopConverter) :=
  ⟨(C6_terminate_before_cleanup
      ⟨[⟨60, Status.todo⟩], some 0, ⟨5, 5, 5, 5⟩, 60, true⟩ 3).1
      (by simp [stop_file_encoding]),
   (C6_terminate_before_cleanup
      ⟨[⟨60, Status.todo⟩], some 0, ⟨5, 5, 5, 5⟩, 60, true⟩ 1).2
      (by simp [stop_all_files_encoding, stopAllLoopActs])⟩

/-! ## Finishing a file encoding (`VideoMorphMW._finish_file_encoding`) -/

/-- The inputs consulted by `_finish_file_encoding`: the running task's
status, whether `converter_exit_status() == QProcess.NormalExit`, and
whether the delete-input checkbox is checked. -/
structure FinishInput where
  runningStatus : Status
  exitNormal : Bool
  deleteOpt : Bool
  deriving DecidableEq, Repr

/-- `VideoMorphMW._finish_file_encoding`: skip all success bookkeeping when
the running task was `Stopped`; else notify, close the converter, and on a
normal exit mark the task `Done` (writing "Done!" into the table) and
delete the input file when the option is set; in every case end with
`_end_encoding_process`.  Returns the task's status afterwards and the
action trace. -/
def finish_file_encoding (inp : FinishInput) : Status × List Act :=
  let (st, tr) :=
    if inp.runningStatus ≠ Status.stopped then
      if inp.exitNormal then
        (Status.done,
         [Act.notifySound, Act.closeConverter, Act.setText 0, Act.markDone]
           ++ (if inp.deleteOpt then [Act.deleteInput] else []))
      else
        (inp.runningStatus, [Act.notifySound, Act.closeConverter])
    else
      (inp.runningStatus, [])
  (st, tr ++ [Act.endEncoding])

/-- C2: on the finished notification, a `Stopped` task skips every piece of
success bookkeeping (no `Done` marking, no notification, no input
deletion); otherwise the task is marked `Done` exactly when the exit was
normal (a `todo` task stays un-`Done` on an abnormal exit), the input is
deleted only when both the exit was normal and the delete option is set;
and in every case the orchestrator proceeds to `_end_encoding_process`. -/
theorem C2_finish_file_encoding (inp : FinishInput) :
    (inp.runningStatus = Status.stopped →
      (finish_file_encoding inp).1 = Status.stopped
      ∧ Act.markDone ∉ (finish_file_encoding inp).2
      ∧ Act.notifySound ∉ (finish_file_encoding inp).2
      ∧ Act.deleteInput ∉ (finish_file_encoding inp).2)
    ∧ (inp.runningStatus ≠ Status.stopped →
      (Act.markDone ∈ (finish_file_encoding inp).2 ↔ inp.exitNormal = true)
      ∧ (inp.runningStatus = Status.todo →
          ((finish_file_encoding inp).1 = Status.done
            ↔ inp.exitNormal = true))
      ∧ (Act.deleteInput ∈ (finish_file_encoding inp).2
          ↔ inp.exitNormal = true ∧ inp.deleteOpt = true))
    ∧ Act.endEncoding ∈ (finish_file_encoding inp).2 := by
  rcases inp with ⟨s, e, d⟩
  cases s <;> cases e <;> cases d <;> simp [finish_file_encoding]

/-- C2 witness: a `todo` task whose process exits normally with the delete
option set is marked `Done` and its input deleted; the end handler runs. -/
theorem C2_finish_file_encoding_witness :
    (Act.markDone ∈ (finish_file_encoding ⟨Status.todo, true, true⟩).2
      ↔ true = true)
    ∧ ((finish_file_encoding ⟨Status.todo, true, true⟩).1 = Status.done
      ↔ true = true)
    ∧ Act.endEncoding ∈ (finish_file_encoding ⟨Status.todo, true, true⟩).2 := by
  have h := C2_finish_file_encoding ⟨Status.todo, true, true⟩
  exact ⟨(h.2.1 (by simp)).1, (h.2.1 (by simp)).2.1 rfl, h.2.2⟩

/-! ## Progress parsing (`VideoMorphMW._update_conversion_progress`) -/

/-- What `_update_conversion_progress` consults: the two lazily initialised
start times of the timer (Python truthiness: a `0.0` start time means "not
yet initialised") and the reader's `has_time_read` flag, true once a
progress time has been recognised in the encoder output for the current
operation (`converter/reader.py` is not among the sources; the flag is
modelled from the spec). -/
structure ProgressInput where
  processStartTime : ℚ
  operationStartTime : ℚ
  hasTimeRead : Bool
  deriving DecidableEq, Repr

/-- `VideoMorphMW._update_conversion_progress`: lazily initialise the
process/operation start times, then — if no time has been read yet — call
`self.library.catch_errors()` and return; otherwise update the timer and
emit progress to the UI, without ever invoking the error catcher. -/
def update_conversion_progress (inp : ProgressInput) : List Act :=
  (if inp.processStartTime = 0 then [Act.initProcessTime] else [])
    ++ (if inp.operationStartTime = 0 then [Act.initOperationTime] else [])
    ++ (if !inp.hasTimeRead then
          [Act.catchErrors]
        else
          [Act.updateTime, Act.updateCumTimes, Act.emitProgress])

/-- C7: on each output chunk, once a progress time has been read for the
current operation the error-catching step is never invoked; while no time
has been read, the chunk only goes to the error catcher and drives no
timer update or progress emission. -/
theorem C7_errors_only_before_time_read (inp : ProgressInput) :
    (inp.hasTimeRead = true →
      Act.catchErrors ∉ update_conversion_progress inp)
    ∧ (inp.hasTimeRead = false →
      Act.catchErrors ∈ update_conversion_progress inp
      ∧ Act.updateTime ∉ update_conversion_progress inp
      ∧ Act.emitProgress ∉ update_conversion_progress inp) := by
  constructor
  · intro h
    simp [update_conversion_progress, h]
  · intro h
    refine ⟨by simp [update_conversion_progress, h], ?_, ?_⟩ <;>
      simp [update_conversion_progress, h]

/-- C7 witness: mid-operation (both start times initialised) with a time
already read, the error catcher is not invoked; before any time is read it
is invoked and no progress is emitted. -/
theorem C7_errors_only_before_time_read_witness :
    Act.catchErrors ∉ update_conversion_progress ⟨3, 2, true⟩
    ∧ Act.catchErrors ∈ update_conversion_progress ⟨3, 2, false⟩
    ∧ Act.emitProgress ∉ update_conversion_progress ⟨3, 2, false⟩ :=
  ⟨(C7_errors_only_before_time_read ⟨3, 2, true⟩).1 rfl,
   ((C7_errors_only_before_time_read ⟨3, 2, false⟩).2 rfl).1,
   ((C7_errors_only_before_time_read ⟨3, 2, false⟩).2 rfl).2.2⟩

/-! ## Starting and advancing the queue (`start_encoding`,
`_end_encoding_process`) -/

/-- The index the queue moves to when `self.task_list.position += 1` runs:
the task list position is `None` while idle and the increment lands on
index 0; during a run it advances by one. -/
def nextPos : Option Nat → Nat
  | none => 0
  | some k => k + 1

/-- Modelled from the spec: `TaskList.is_exhausted` — true iff the position
has advanced past the last index, i.e. the position after the current one
falls outside the list (`converter/tasklist.py` is not among the
sources). -/
def is_exhausted (st : MWState) : Bool :=
  decide (st.tasks.length ≤ nextPos st.pos)

/-- The idle-state reset performed by `_end_encoding_process` when the
queue is exhausted: position back to `None`, progress times reset
(including `process_start_time = 0.0`), list duration recomputed. -/
def go_idle (st : MWState) : MWState :=
  { st with
      pos := none
      timer := reset_progress_times
      taskListDuration := taskListTotalDuration st.tasks
      converterRunning := false }

/-- `VideoMorphMW.start_encoding` with the tail of `_end_encoding_process`
inlined: advance the position and zero the operation start time; if the
task at the new position is not `Done`, build its conversion command,
start the converter and set the task's status to `To convert`; if it is
`Done`, fall through to `_end_encoding_process`, which returns to idle
when the queue is exhausted and otherwise re-enters `start_encoding`.
`fuel` bounds the recursion depth (the Python recursion is bounded by the
queue length); the error dialogs of the spawn-failure paths are not
modelled.  The success path of a started task returns immediately: further
progress happens on later notifications. -/
def start_encoding : Nat → MWState → MWState × List Act
  | 0, st => (st, [])
  | fuel + 1, st =>
    let p := nextPos st.pos
    let st1 : MWState :=
      { st with
          pos := some p
          timer := { st.timer with operationStartTime := 0 } }
    match st1.tasks.get? p with
    | none => (st1, [])
    | some t =>
      if t.status = Status.done then
        if is_exhausted st1 then (go_idle st1, [Act.setIdle])
        else start_encoding fuel st1
      else
        ({ st1 with
            tasks := setStatusAt st1.tasks p Status.todo
            converterRunning := true },
         [Act.buildCmd p, Act.startConv p])

/-- C8: when the queue advances onto a `Done` task, no command is built and
no converter is started for it — every `buildCmd`/`startConv` in the trace
concerns a strictly later index — and the run proceeds straight to
end-of-run handling: the final state is idle (position `None`) or a
converter was started for a later task.  `fuel` must cover the remaining
queue (`tasks.length ≤ nextPos pos + fuel`). -/
theorem C8_done_task_is_noop (fuel : Nat) (st : MWState) (t : Task)
    (hfuel : st.tasks.length ≤ nextPos st.pos + fuel)
    (hget : st.tasks.get? (nextPos st.pos) = some t)
    (hdone : t.status = Status.done) :
    (∀ j, Act.buildCmd j ∈ (start_encoding fuel st).2 → nextPos st.pos < j)
    ∧ (∀ j, Act.startConv j ∈ (start_encoding fuel st).2 → nextPos st.pos < j)
    ∧ ((start_encoding fuel st).1.pos = none
        ∨ ∃ j, nextPos st.pos < j
            ∧ Act.startConv j ∈ (start_encoding fuel st).2) := by
  induction fuel generalizing st t with
  | zero =>
    exfalso
    rcases List.get?_eq_some.mp hget with ⟨hlt, -⟩
    omega
  | succ fuel ih =>
    have hbody :
        start_encoding (fuel + 1) st
          = (if is_exhausted
                { st with
                    pos := some (nextPos st.pos)
                    timer := { st.timer with operationStartTime := 0 } }
            then
              (go_idle
                { st with
                    pos := some (nextPos st.pos)
                    timer := { st.timer with operationStartTime := 0 } },
               [Act.setIdle])
            else
              start_encoding fuel
                { st with
                    pos := some (nextPos st.pos)
                    timer := { st.timer with operationStartTime := 0 } }) := by
      simp only [start_encoding]
      rw [show ({ st with
            pos := some (nextPos st.pos)
            timer := { st.timer with operationStartTime := 0 } }
          : MWState).tasks.get? (nextPos st.pos) = some t from hget]
      simp [hdone]
    by_cases hex : is_exhausted
        { st with
            pos := some (nextPos st.pos)
            timer := { st.timer with operationStartTime := 0 } } = true
    · rw [hbody, if_pos hex]
      refine ⟨?_, ?_, Or.inl rfl⟩ <;> intro j hj <;> simp at hj
    · rw [hbody, if_neg hex]
      set st1 : MWState :=
        { st with
            pos := some (nextPos st.pos)
            timer := { st.timer with operationStartTime := 0 } } with hst1
      have hnext : nextPos st1.pos = nextPos st.pos + 1 := rfl
      have hlen : nextPos st.pos + 1 < st.tasks.length := by
        have hx : ¬ (st.tasks.length ≤ nextPos st.pos + 1) := by
          intro hle
          apply hex
          simp only [is_exhausted, decide_eq_true_eq]
          exact hle
        omega
      have hget1 : ∃ t', st1.tasks.get? (nextPos st.pos + 1) = some t' := by
        cases hg : st1.tasks.get? (nextPos st.pos + 1) with
        | none =>
          exfalso
          rw [List.get?_eq_none] at hg
          have : st1.tasks.length = st.tasks.length := rfl
          omega
        | some t' => exact ⟨t', rfl⟩
      rcases hget1 with ⟨t', hget1⟩
      by_cases hd' : t'.status = Status.done
      · have hfuel1 : st1.tasks.length ≤ nextPos st1.pos + fuel := by
          rw [hnext]
          show st.tasks.length ≤ nextPos st.pos + 1 + fuel
          omega
        have h := ih st1 t' hfuel1 (by rw [hnext]; exact hget1) hd'
        refine ⟨?_, ?_, ?_⟩
        · intro j hj
          have := h.1 j hj
          omega
        · intro j hj
          have := h.2.1 j hj
          omega
        · rcases h.2.2 with hnone | ⟨j, hj, hmem⟩
          · exact Or.inl hnone
          · exact Or.inr ⟨j, by omega, hmem⟩
      · cases fuel with
        | zero => exfalso; omega
        | succ f =>
          have hbody1 :
              start_encoding (f + 1) st1
                = ({ { st1 with
                        pos := some (nextPos st.pos + 1)
                        timer := { st1.timer with operationStartTime := 0 } }
                      with
                      tasks := setStatusAt st1.tasks (nextPos st.pos + 1)
                          Status.todo
                      converterRunning := true },
                   [Act.buildCmd (nextPos st.pos + 1),
                    Act.startConv (nextPos st.pos + 1)]) := by
            simp only [start_encoding]
            rw [show ({ st1 with
                  pos := some (nextPos st1.pos)
                  timer := { st1.timer with operationStartTime := 0 } }
                : MWState).tasks.get? (nextPos st1.pos) = some t' from hget1]
            simp [hd']
            exact ⟨rfl, rfl⟩
          rw [hbody1]
          refine ⟨?_, ?_, Or.inr ⟨nextPos st.pos + 1, by omega, by simp⟩⟩ <;>
            intro j hj <;> simp at hj <;> omega

/-- C8 witness: a queue of a `Done` task followed by a `todo` task, entered
from idle: the `Done` task at index 0 gets no command and no converter
start, and the run advances to start index 1. -/
theorem C8_done_task_is_noop_witness :
    (∀ j, Act.buildCmd j ∈
        (start_encoding 3
          ⟨[⟨120, Status.done⟩, ⟨60, Status.todo⟩], none, ⟨0, 0, 0, 0⟩, 60,
            false⟩).2 → 0 < j)
    ∧ ((start_encoding 3
          ⟨[⟨120, Status.done⟩, ⟨60, Status.todo⟩], none, ⟨0, 0, 0, 0⟩, 60,
            false⟩).1.pos = none
        ∨ ∃ j, 0 < j ∧ Act.startConv j ∈
            (start_encoding 3
              ⟨[⟨120, Status.done⟩, ⟨60, Status.todo⟩], none, ⟨0, 0, 0, 0⟩,
                60, false⟩).2) := by
  have h := C8_done_task_is_noop 3
    ⟨[⟨120, Status.done⟩, ⟨60, Status.todo⟩], none, ⟨0, 0, 0, 0⟩, 60, false⟩
    ⟨120, Status.done⟩ (by simp [nextPos]) rfl rfl
  exact ⟨h.1, h.2.2⟩

/-! ## Removing a task (`VideoMorphMW.remove_media_file`) -/

/-- Modelled from the spec: `TaskList.delete_file(position)` removes the
task at the given index, the later tasks shifting down by one
(`converter/tasklist.py` is not among the sources). -/
def delete_file : List Task → Nat → List Task
  | [], _ => []
  | _ :: ts, 0 => ts
  | t :: ts, i + 1 => t :: delete_file ts i

/-- `VideoMorphMW.remove_media_file`, after the user confirms: remove the
selected row from the table and the task list, set
`self.task_list.position = None`, and recompute the list duration.
Removal is only enabled while no conversion runs, where the position
already is `None`. -/
def remove_media_file (st : MWState) (row : Nat) : MWState :=
  let tasks' := delete_file st.tasks row
  { st with
      tasks := tasks'
      pos := none
      taskListDuration := taskListTotalDuration tasks' }

/-- The task a queue position refers to, if any. -/
def refersTo (pos : Option Nat) (tasks : List Task) : Option Task :=
  pos.bind tasks.get?

theorem delete_file_get?_lt (ts : List Task) (i j : Nat) (h : j < i) :
    (delete_file ts i).get? j = ts.get? j := by
  induction ts generalizing i j with
  | nil => cases i <;> rfl
  | cons t ts ih =>
    cases i with
    | zero => omega
    | succ i' =>
      cases j with
      | zero => rfl
      | succ j' => simpa [delete_file] using ih i' j' (by omega)

theorem delete_file_get?_ge (ts : List Task) (i j : Nat) (h : i ≤ j) :
    (delete_file ts i).get? j = ts.get? (j + 1) := by
  induction ts generalizing i j with
  | nil => cases i <;> rfl
  | cons t ts ih =>
    cases i with
    | zero => rfl
    | succ i' =>
      cases j with
      | zero => omega
      | succ j' => simpa [delete_file] using ih i' j' (by omega)

theorem delete_file_length (ts : List Task) (i : Nat) (h : i < ts.length) :
    (delete_file ts i).length = ts.length - 1 := by
  induction ts generalizing i with
  | nil => simp at h
  | cons t ts ih =>
    cases i with
    | zero => simp [delete_file]
    | succ i' =>
      simp only [delete_file, List.length_cons]
      rw [ih i' (by simpa using h)]
      simp at h
      omega

/-- C9: after removing the task at any index — in particular one at or
before the current position — the position refers to no task other than
the one it referred to before (indeed removal only happens while idle,
where the position is `None` before and after, so it refers to the same,
absent, task); the tasks after the removed index shift down by one, the
tasks before it are unchanged, and the length drops by one. -/
theorem C9_remove_media_file (st : MWState) (row : Nat)
    (hrow : row < st.tasks.length) :
    (st.pos = none →
      refersTo (remove_media_file st row).pos (remove_media_file st row).tasks
        = refersTo st.pos st.tasks)
    ∧ (∀ t, refersTo (remove_media_file st row).pos
          (remove_media_file st row).tasks = some t →
        refersTo st.pos st.tasks = some t)
    ∧ (∀ j, j < row →
        (remove_media_file st row).tasks.get? j = st.tasks.get? j)
    ∧ (∀ j, row ≤ j →
        (remove_media_file st row).tasks.get? j = st.tasks.get? (j + 1))
    ∧ (remove_media_file st row).tasks.length = st.tasks.length - 1 := by
  refine ⟨?_, ?_, ?_, ?_, ?_⟩
  · intro h
    rw [h]
    rfl
  · intro t h
    simp [remove_media_file, refersTo] at h
  · intro j hj
    exact delete_file_get?_lt st.tasks row j hj
  · intro j hj
    exact delete_file_get?_ge st.tasks row j hj
  · exact delete_file_length st.tasks row hrow

/-- C9 witness: removing index 0 from an idle two-task queue: the position
refers to the same (no) task, the old index-1 task is now at index 0, and
the length drops from 2 to 1. -/
theorem C9_remove_media_file_witness :
    refersTo (remove_media_file
        ⟨[⟨120, Status.todo⟩, ⟨60, Status.todo⟩], none, ⟨0, 0, 0, 0⟩, 180,
          false⟩ 0).pos
      (remove_media_file
        ⟨[⟨120, Status.todo⟩, ⟨60, Status.todo⟩], none, ⟨0, 0, 0, 0⟩, 180,
          false⟩ 0).tasks = refersTo none [⟨120, Status.todo⟩, ⟨60, Status.todo⟩]
    ∧ (remove_media_file
        ⟨[⟨120, Status.todo⟩, ⟨60, Status.todo⟩], none, ⟨0, 0, 0, 0⟩, 180,
          false⟩ 0).tasks.get? 0
      = some ⟨60, Status.todo⟩
    ∧ (remove_media_file
        ⟨[⟨120, Status.todo⟩, ⟨60, Status.todo⟩], none, ⟨0, 0, 0, 0⟩, 180,
          false⟩ 0).tasks.length = 1 := by
  have h := C9_remove_media_file
    ⟨[⟨120, Status.todo⟩, ⟨60, Status.todo⟩], none, ⟨0, 0, 0, 0⟩, 180, false⟩ 0
    (by simp)
  exact ⟨h.1 rfl, h.2.2.2.1 0 (by omega), h.2.2.2.2⟩

/-! ## Adding a batch of files (`VideoMorphMW.add_tasks`) -/

/-- Modelled from the spec: `TaskList.task_is_added(file)` — whether a file
path is already present among the queued tasks (`converter/tasklist.py` is
not among the sources). -/
def task_is_added (queue : List Video) (f : Video) : Bool :=
  queue.any (fun v => v.path == f.path)

/-- `VideoMorphMW.add_tasks`: first drop every file already present in the
task list, then hand the remaining paths to `createVideos`/`VideoCreator`,
whose created videos are appended to the queue (`addCreated`). -/
def add_tasks (queue : List Video) (files : List Video) : List Video :=
  addCreated queue (files.filter (fun f => ! task_is_added queue f))

/-- C10 counterexample: a single batch holding the same (valid) path twice
is filtered only against the pre-existing task list, so both copies get
added and the queue ends with two tasks with the same source path. -/
theorem C10_duplicate_in_batch :
    ¬ ((add_tasks []
        [⟨"a.mp4", some (some 1)⟩, ⟨"a.mp4", some (some 1)⟩]).map
        (·.path)).Nodup := by
  have hval : Video.is_valid ⟨"a.mp4", some (some 1)⟩ = true := by
    norm_num [Video.is_valid]
  have : add_tasks [] [⟨"a.mp4", some (some 1)⟩, ⟨"a.mp4", some (some 1)⟩]
      = [⟨"a.mp4", some (some 1)⟩, ⟨"a.mp4", some (some 1)⟩] := by
    simp [add_tasks, addCreated, task_is_added, createVideo, hval]
  rw [this]
  simp

/-- C10 amended: adding a batch filters out every path already present in
the task list before any probing or task creation, so — provided the batch
itself repeats no path, as a file-dialog selection or a directory scan
cannot — a queue with pairwise distinct source paths still has pairwise
distinct source paths after the add; and a batch consisting entirely of
already-added files leaves the queue unchanged. -/
theorem C10_no_duplicate_paths (queue files : List Video)
    (hq : (queue.map (·.path)).Nodup) (hf : (files.map (·.path)).Nodup) :
    ((add_tasks queue files).map (·.path)).Nodup
    ∧ ((∀ f ∈ files, task_is_added queue f = true)
        → add_tasks queue files = queue) := by
  constructor
  · have hsub : (files.filter (fun f => ! task_is_added queue f)).Sublist files :=
      List.filter_sublist files
    have hcreated :
        (createVideo (files.filter (fun f => ! task_is_added queue f))).1.Sublist
          files := by
      rw [createVideo_fst]
      exact (List.filter_sublist _).trans hsub
    unfold add_tasks addCreated
    rw [List.map_append, List.nodup_append]
    refine ⟨hq, (hcreated.map (·.path)).nodup hf, ?_⟩
    intro p hp hp'
    rcases List.mem_map.mp hp' with ⟨v, hv, hvp⟩
    have hvfresh : v ∈ files.filter (fun f => ! task_is_added queue f) := by
      rw [createVideo_fst] at hv
      exact List.mem_of_mem_filter hv
    have hnadd : task_is_added queue v = false := by
      have := (List.mem_filter.mp hvfresh).2
      simpa using this
    rcases List.mem_map.mp hp with ⟨u, hu, hup⟩
    have : queue.any (fun w => w.path == v.path) = true :=
      List.any_eq_true.mpr ⟨u, hu, by rw [hup, hvp]; simp⟩
    rw [task_is_added] at hnadd
    rw [hnadd] at this
    cases this
  · intro hall
    have : files.filter (fun f => ! task_is_added queue f) = [] := by
      apply List.filter_eq_nil_iff.mpr
      intro f hfmem
      simp [hall f hfmem]
    simp [add_tasks, addCreated, this, createVideo]

/-- C10 witness: a queue holding "a.mp4" and a batch re-adding only
"a.mp4": the queue's paths stay duplicate-free and the queue itself is
unchanged. -/
theorem C10_no_duplicate_paths_witness :
    ((add_tasks [⟨"a.mp4", some (some 1)⟩] [⟨"a.mp4", some (some 3)⟩]).map
        (·.path)).Nodup
    ∧ add_tasks [⟨"a.mp4", some (some 1)⟩] [⟨"a.mp4", some (some 3)⟩]
        = [⟨"a.mp4", some (some 1)⟩] := by
  have h := C10_no_duplicate_paths [⟨"a.mp4", some (some 1)⟩]
    [⟨"a.mp4", some (some 3)⟩] (by simp) (by simp)
  refine ⟨h.1, h.2 ?_⟩
  intro f hfmem
  simp only [List.mem_singleton] at hfmem
  subst hfmem
  simp [task_is_added]

end Videomorph
